import Mathlib

/-!
Shallow embedding of the CodeMedic VS Code extension core (src/extension.js):
conversation history with trimming, intent classification, JSON span
extraction, the confirmation gate for pending fixes, fix application and
the post-apply summary.  External capabilities (the Gemini model call, the
workspace file listing, JSON.parse on the extracted span, presence of the
API key and of a workspace folder) are supplied as an explicit environment
record; everything else is translated directly from the JavaScript source.
-/

namespace CodeMedic

/-- Model of the JavaScript runtime values that flow through the fix
payload handling (the result of JSON.parse and its fields). -/
inductive JSValue where
  | undefined : JSValue
  | null : JSValue
  | boolean : Bool → JSValue
  | number : Int → JSValue
  | string : String → JSValue
  | array : List JSValue → JSValue
  | object : List (String × JSValue) → JSValue

/-- Property access v.k on a JS value: object field lookup, undefined on a
missing field and on non-objects (the source only accesses fields of
JSON.parse results, which are objects because the extracted span starts
with an opening brace). -/
def getField : JSValue → String → JSValue
  | JSValue.object fields, k =>
      match fields.lookup k with
      | some v => v
      | none => JSValue.undefined
  | _, _ => JSValue.undefined

/-- JavaScript truthiness of a value. -/
def truthy : JSValue → Bool
  | JSValue.undefined => false
  | JSValue.null => false
  | JSValue.boolean b => b
  | JSValue.number n => n != 0
  | JSValue.string s => s != ""
  | JSValue.array _ => true
  | JSValue.object _ => true

/-- Element rendering used by Array.prototype.join: null and undefined
render as the empty string, other values by their JS string conversion. -/
def jsJoinElem : JSValue → String
  | JSValue.undefined => ""
  | JSValue.null => ""
  | JSValue.boolean b => cond b "true" "false"
  | JSValue.number n => toString n
  | JSValue.string s => s
  | JSValue.object _ => "[object Object]"
  | JSValue.array xs =>
      String.intercalate "," (xs.attach.map (fun e => jsJoinElem e.val))
decreasing_by
  have h := List.sizeOf_lt_of_mem e.property
  simp only [JSValue.array.sizeOf_spec]
  omega

/-- JS string conversion of a value, as performed by a template literal. -/
def jsToString : JSValue → String
  | JSValue.undefined => "undefined"
  | JSValue.null => "null"
  | v => jsJoinElem v

/-- Evaluation of the source's emptiness test on the parsed payload:
not pendingFixes.files, or pendingFixes.files.length strictly equal to 0
(length of a non-array, non-string value is undefined, never strictly
equal to the number 0). -/
def emptyFilesCheck (pf : JSValue) : Bool :=
  let files := getField pf "files"
  !truthy files ||
    (match files with
     | JSValue.array xs => xs.length == 0
     | JSValue.string s => s.length == 0
     | _ => false)

/-- A conversation turn as pushed onto the history array: a role together
with the parts list (the source always pushes a single text part). -/
structure Turn where
  role : String
  parts : List String
deriving Repr, DecidableEq

/-- MAX_TURNS from the source: last 6 user+model pairs. -/
def MAX_TURNS : Nat := 6

/-- Translation of trimHistory: when the history exceeds MAX_TURNS * 2
entries, splice removes the excess oldest entries from the front. -/
def trimHistory (h : List Turn) : List Turn :=
  let maxEntries := MAX_TURNS * 2
  if h.length > maxEntries then h.drop (h.length - maxEntries) else h

/-- Model of String.prototype.toLowerCase, mapping each character to its
lower-case form (the texts involved are ASCII, where the JS and Lean
character lowerings agree). -/
def jsToLowerCase (s : String) : String :=
  String.mk (s.data.map Char.toLower)

/-- Model of String.prototype.includes: some suffix of s starting at an
index between 0 and s.length begins with sub. -/
def jsIncludes (s sub : String) : Bool :=
  (List.range (s.length + 1)).any
    (fun i => List.isPrefixOf sub.data (s.data.drop i))

/-- Translation of isCodeReviewRequest: lowercase the text, then test the
keyword disjunction; in JS the final conjunction binds tighter than the
disjunctions, exactly as Lean's && binds tighter than ||. -/
def isCodeReviewRequest (text : String) : Bool :=
  let t := jsToLowerCase text
  jsIncludes t "review" ||
  jsIncludes t "analyse" ||
  jsIncludes t "analyze" ||
  jsIncludes t "check" ||
  jsIncludes t "bug" ||
  jsIncludes t "issue" ||
  jsIncludes t "fix" ||
  jsIncludes t "correct" ||
  jsIncludes t "improve" ||
  (jsIncludes t "code" && jsIncludes t "file")

/-- Translation of extractJson: slice from the first opening brace to the
last closing brace, failing when either is absent.  When the last closing
brace precedes the first opening brace the slice is empty, as in JS. -/
def extractJson (text : String) : Except String String :=
  let cs := text.data
  match cs.indexOf? '{' with
  | none => Except.error "No JSON object found in response"
  | some firstBrace =>
      match cs.reverse.indexOf? '}' with
      | none => Except.error "No JSON object found in response"
      | some rIdx =>
          let lastBrace := cs.length - 1 - rIdx
          Except.ok (String.mk ((cs.drop firstBrace).take (lastBrace + 1 - firstBrace)))

/-- File system under the workspace root, keyed by the path joined to the
root, mapping to the file's text content. -/
abbrev FileSys := List (String × String)

/-- Full-content write through the write capability: replace an existing
entry for the path, or add one. -/
def writeFile (fs : FileSys) (path content : String) : FileSys :=
  if fs.any (fun e => e.1 == path) then
    fs.map (fun e => if e.1 == path then (path, content) else e)
  else
    fs ++ [(path, content)]

/-- Read a file's content back from the model file system. -/
def readFile (fs : FileSys) (path : String) : Option String :=
  fs.lookup path

/-- Loop body of applyFixes over data.files: for each entry in order,
throw when fixedCode is falsy or not a string (the thrown message names
the entry's path), otherwise write the full fixedCode content to the
entry's path.  The returned file system reflects the writes performed
before any throw; the optional string is the thrown error message. -/
def applyFixesGo (fs : FileSys) : List JSValue → FileSys × Option String
  | [] => (fs, none)
  | file :: rest =>
      let fc := getField file "fixedCode"
      let isStr := match fc with
        | JSValue.string _ => true
        | _ => false
      if !truthy fc || !isStr then
        (fs, some ("Invalid fixedCode for " ++ jsToString (getField file "path")))
      else
        match getField file "path" with
        | JSValue.string p =>
            applyFixesGo (writeFile fs p (match fc with
              | JSValue.string s => s
              | _ => "")) rest
        | _ =>
            -- vscode.Uri.joinPath throws a TypeError on a non-string segment
            (fs, some "path must be of type string")

/-- Translation of applyFixes: require a workspace folder, then iterate
data.files writing each validated entry; a non-array files value makes
the for..of loop throw. -/
def applyFixes (hasWorkspace : Bool) (data : JSValue) (fs : FileSys) :
    FileSys × Option String :=
  if !hasWorkspace then
    (fs, some "No workspace folder found.")
  else
    match getField data "files" with
    | JSValue.array files => applyFixesGo fs files
    | _ => (fs, some "data.files is not iterable")

/-- JS String.prototype.split on the path separator class, then pop: the
basename of the path (split always yields at least one piece). -/
def basename (p : String) : String :=
  match (p.split (fun c => c == '/' || c == '\\')).getLast? with
  | some s => s
  | none => ""

/-- One line of the fix summary for a single entry: file.path.split
requires path to be a string, file.issues.slice(0, 2).join requires
issues to be an array (a string has slice but no join; anything else has
neither), and each taken issue is rendered by join's element
conversion. -/
def summaryLine (file : JSValue) : Except String String :=
  match getField file "path" with
  | JSValue.string p =>
      match getField file "issues" with
      | JSValue.array issues =>
          Except.ok ("• " ++ basename p ++ " – " ++
            String.intercalate ", " ((issues.take 2).map jsJoinElem))
      | JSValue.string _ =>
          Except.error "file.issues.slice(0, 2).join is not a function"
      | _ =>
          Except.error "Cannot read properties of undefined (reading 'slice')"
  | _ => Except.error "file.path.split is not a function"

/-- Translation of buildFixSummary: map each entry of fixes.files to its
summary line (the first throwing entry aborts the map) and join the lines
with newlines; a non-array files value has no map method. -/
def buildFixSummary (fixes : JSValue) : Except String String :=
  match getField fixes "files" with
  | JSValue.array files => do
      let lines ← files.mapM summaryLine
      Except.ok (String.intercalate "\n" lines)
  | _ => Except.error "fixes.files.map is not a function"

/-- Outcomes of the external capabilities consumed while handling one
incoming user message: whether the codemedic.apiKey setting is present
(getGeminiClient throws without it), whether a workspace folder is bound,
the list of path and content pairs produced by findFiles plus readFile on
the workspace (before the slice to 10), the outcome of the
generateContent call (an error message when the call throws, otherwise
the optional candidates text), and the outcome of JSON.parse on the
extracted span. -/
structure Env where
  hasApiKey : Bool
  hasWorkspace : Bool
  workspaceFiles : List (String × String)
  genResult : Except String (Option String)
  parseResult : Except Unit JSValue

/-- Mutable session state owned by one open chat panel: the history
array, the pendingFixes variable (null or the parsed fix payload), and
the workspace file system the write capability mutates. -/
structure SessionState where
  history : List Turn
  pendingFixes : Option JSValue
  fs : FileSys

/-- State at panel creation: empty history, no pending fixes. -/
def initialState : SessionState :=
  { history := [], pendingFixes := none, fs := [] }

/-- Error reply posted by the catch handler around the message handler. -/
def errReply (msg : String) : String := "⚠️ Error: " ++ msg

/-- Fallback reply when the model produced no text or empty text. -/
def noReplyFallback : String := "Sorry, I could not generate a response."

/-- Translation of the code-review branch of the message handler: post
the two progress notices, slice the workspace files to 10, bail out when
none remain, call the model on the review prompt, then try to extract and
parse a JSON fix payload from the candidates text; the inner catch posts
the raw text (the string undefined when the candidates text is absent),
and an empty parsed files list discards the payload as no issues. -/
def handleReview (st : SessionState) (env : Env) : SessionState × List String :=
  let out := ["Checking your code, please wait...", "Reviewing workspace files..."]
  let files := env.workspaceFiles.take 10
  if files.length == 0 then
    (st, out ++ ["No supported code files found in this workspace."])
  else
    match env.genResult with
    | Except.error e => (st, out ++ [errReply e])
    | Except.ok rawOpt =>
        match rawOpt with
        | none =>
            -- raw is undefined, so extractJson throws a TypeError and the
            -- inner catch posts raw, which the webview renders as undefined
            (st, out ++ ["undefined"])
        | some raw =>
            match extractJson raw with
            | Except.error _ => (st, out ++ [raw])
            | Except.ok _span =>
                match env.parseResult with
                | Except.error _ => (st, out ++ [raw])
                | Except.ok pf =>
                    if emptyFilesCheck pf then
                      ({ st with pendingFixes := none },
                       out ++ ["✅ No issues found. Your code looks good."])
                    else
                      ({ st with pendingFixes := some pf },
                       out ++ ["I found issues and prepared fixes. Do you want me to apply them? (Yes / No)"])

/-- Translation of the plain-chat tail of the message handler: push the
user turn, call the model on the whole history, and only on success push
the model turn, trim, and post the reply; when the call throws, the catch
posts the error with the user turn already appended and never trimmed. -/
def handleChat (st : SessionState) (env : Env) (text : String) :
    SessionState × List String :=
  let hist1 := st.history ++ [{ role := "user", parts := [text] }]
  match env.genResult with
  | Except.error e => ({ st with history := hist1 }, [errReply e])
  | Except.ok replyOpt =>
      let reply := match replyOpt with
        | some s => if s == "" then noReplyFallback else s
        | none => noReplyFallback
      let hist2 := trimHistory (hist1 ++ [{ role := "model", parts := [reply] }])
      ({ st with history := hist2 }, [reply])

/-- Gate token test for the confirm branch: the lowercased text is listed
in the yes or apply pair. -/
def isYesApply (text : String) : Bool :=
  ["yes", "apply"].contains (jsToLowerCase text)

/-- Gate token test for the reject branch. -/
def isNo (text : String) : Bool :=
  jsToLowerCase text == "no"

/-- Translation of the whole onDidReceiveMessage handler for a userMessage
envelope: getGeminiClient first (its throw is caught and posted), then the
review branch, then the two gate-token branches guarded by a pending fix,
then plain chat.  In the confirm branch applyFixes runs first; only when
it and buildFixSummary both succeed is the success summary posted and
pendingFixes reset to null — a throw from either lands in the catch,
which posts the error and leaves pendingFixes untouched. -/
def handleMessage (st : SessionState) (env : Env) (text : String) :
    SessionState × List String :=
  if !env.hasApiKey then
    (st, [errReply "Gemini API key is not set. Please add it in CodeMedic settings."])
  else if isCodeReviewRequest text then
    handleReview st env
  else
    match st.pendingFixes with
    | some pf =>
        if isYesApply text then
          match applyFixes env.hasWorkspace pf st.fs with
          | (fs', some e) => ({ st with fs := fs' }, [errReply e])
          | (fs', none) =>
              match buildFixSummary pf with
              | Except.error e => ({ st with fs := fs' }, [errReply e])
              | Except.ok summary =>
                  ({ st with fs := fs', pendingFixes := none },
                   ["✅ Fixes applied successfully.\n\nSummary:\n" ++ summary])
        else if isNo text then
          ({ st with pendingFixes := none }, ["Okay, fixes were not applied."])
        else
          handleChat st env text
    | none => handleChat st env text

/-- Translation of panel.onDidDispose: the history array is reset to
length 0; the pendingFixes variable is not touched there. -/
def onDispose (st : SessionState) : SessionState :=
  { st with history := [] }

/-- One step of a message trace: the environment outcomes together with
the incoming message text. -/
structure Step where
  env : Env
  text : String

/-- Run a sequence of message-handling steps, keeping only the state. -/
def runTrace (st : SessionState) (steps : List Step) : SessionState :=
  steps.foldl (fun s step => (handleMessage s step.env step.text).1) st

/-- Containment of one string in another, stated as the spec states it:
the character sequence splits around the substring. -/
def specContains (t kw : String) : Prop :=
  ∃ l r : List Char, t.data = l ++ kw.data ++ r

/-- The includes model finds the substring exactly when the character
sequence splits around it. -/
theorem jsIncludes_iff (s sub : String) :
    jsIncludes s sub = true ↔ ∃ l r : List Char, s.data = l ++ sub.data ++ r := by
  unfold jsIncludes
  rw [List.any_eq_true]
  constructor
  · rintro ⟨i, _hi, hpre⟩
    rw [List.isPrefixOf_iff_prefix] at hpre
    obtain ⟨t, ht⟩ := hpre
    refine ⟨s.data.take i, t, ?_⟩
    conv_lhs => rw [← List.take_append_drop i s.data, ← ht]
    rw [List.append_assoc]
  · rintro ⟨l, r, hs⟩
    refine ⟨l.length, ?_, ?_⟩
    · rw [List.mem_range]
      have hlen : l.length ≤ s.data.length := by
        rw [hs]; simp
      have hseq : s.length = s.data.length := rfl
      omega
    · rw [List.isPrefixOf_iff_prefix, hs, List.append_assoc, List.drop_left]
      exact ⟨r, rfl⟩

/-- C6: for every message text, classify returns review exactly when the
lowercased text contains one of the substrings review, analyse, analyze,
check, bug, issue, fix, correct, improve, or contains both code and file;
otherwise it returns chat.  Purity and determinism are immediate because
isCodeReviewRequest is a function of the text alone. -/
theorem C6_classifier_keyword_characterization (text : String) :
    isCodeReviewRequest text = true ↔
      (specContains (jsToLowerCase text) "review" ∨
       specContains (jsToLowerCase text) "analyse" ∨
       specContains (jsToLowerCase text) "analyze" ∨
       specContains (jsToLowerCase text) "check" ∨
       specContains (jsToLowerCase text) "bug" ∨
       specContains (jsToLowerCase text) "issue" ∨
       specContains (jsToLowerCase text) "fix" ∨
       specContains (jsToLowerCase text) "correct" ∨
       specContains (jsToLowerCase text) "improve" ∨
       (specContains (jsToLowerCase text) "code" ∧
        specContains (jsToLowerCase text) "file")) := by
  unfold isCodeReviewRequest specContains
  simp only [Bool.or_eq_true, Bool.and_eq_true, jsIncludes_iff, or_assoc]

/-- Reading a path back after a full-content write yields exactly the
written content, whether the write replaced an existing entry or added a
new one. -/
theorem readFile_writeFile (fs : FileSys) (p s : String) :
    readFile (writeFile fs p s) p = some s := by
  induction fs with
  | nil => simp [writeFile, readFile]
  | cons hd tl ih =>
      by_cases hq : hd.1 = p
      · simp [writeFile, readFile, hq]
      · have hq' : (hd.1 == p) = false := by
          simp [hq]
        by_cases ha : tl.any (fun e => e.1 == p)
        · have hw : writeFile tl p s = tl.map (fun e => if e.1 == p then (p, s) else e) := by
            simp [writeFile, ha]
          simp only [writeFile, List.any_cons, hq', Bool.false_or, ha, if_pos,
            List.map_cons, hq', if_neg hq]
          simp only [readFile, List.lookup]
          have hpq : (p == hd.1) = false := by
            simp only [beq_eq_false_iff_ne, ne_eq]
            exact fun h => hq h.symm
          rw [hpq]
          have := ih
          rw [hw] at this
          exact this
        · have ha' : tl.any (fun e => e.1 == p) = false := by
            simp only [Bool.not_eq_true] at ha
            exact ha
          have hw : writeFile tl p s = tl ++ [(p, s)] := by
            simp [writeFile, ha']
          simp only [writeFile, List.any_cons, hq', Bool.false_or, ha', if_neg,
            List.cons_append]
          simp only [readFile, List.lookup]
          have hpq : (p == hd.1) = false := by
            simp only [beq_eq_false_iff_ne, ne_eq]
            exact fun h => hq h.symm
          rw [hpq]
          have := ih
          rw [hw] at this
          exact this

/-- C9: for a FixSet holding one entry whose fixedCode is the string s,
a successful apply leaves the file at the entry's path holding exactly s:
the write replaces the file content entirely. -/
theorem C9_roundtrip_single_entry_apply (data entry : JSValue) (p s : String)
    (fs fs' : FileSys)
    (hfiles : getField data "files" = JSValue.array [entry])
    (hpath : getField entry "path" = JSValue.string p)
    (hfc : getField entry "fixedCode" = JSValue.string s)
    (hok : applyFixes true data fs = (fs', none)) :
    readFile fs' p = some s := by
  unfold applyFixes at hok
  rw [hfiles] at hok
  simp only [Bool.not_true, Bool.false_eq_true, if_false] at hok
  unfold applyFixesGo at hok
  rw [hfc, hpath] at hok
  by_cases hs : s = ""
  · subst hs
    simp [truthy] at hok
  · have htr : truthy (JSValue.string s) = true := by
      simp [truthy, hs]
    simp only [htr, Bool.not_true, Bool.false_or, Bool.not_false, Bool.or_false,
      Bool.false_eq_true, if_false, applyFixesGo] at hok
    rw [Prod.mk.injEq] at hok
    obtain ⟨h1, -⟩ := hok
    rw [← h1]
    exact readFile_writeFile fs p s

/-- Closed instance of the round-trip theorem at the spec's example entry:
path a.js, one issue, fixedCode console.log(1). -/
theorem C9_roundtrip_witness :
    readFile [("a.js", "console.log(1)")] "a.js" = some "console.log(1)" :=
  C9_roundtrip_single_entry_apply
    (JSValue.object [("files", JSValue.array [JSValue.object
      [("path", JSValue.string "a.js"), ("issues", JSValue.array [JSValue.string "x"]),
       ("fixedCode", JSValue.string "console.log(1)")]])])
    (JSValue.object
      [("path", JSValue.string "a.js"), ("issues", JSValue.array [JSValue.string "x"]),
       ("fixedCode", JSValue.string "console.log(1)")])
    "a.js" "console.log(1)" [] [("a.js", "console.log(1)")]
    rfl rfl rfl rfl

/-- A string-valued fixedCode renders as itself in a template literal. -/
theorem jsToString_string (s : String) : jsToString (JSValue.string s) = s := by
  simp [jsToString, jsJoinElem]

/-- An entry that passes the apply-time validation: a truthy string
fixedCode and a string path. -/
def validEntry (e : JSValue) : Prop :=
  (∃ s, s ≠ "" ∧ getField e "fixedCode" = JSValue.string s) ∧
  (∃ p, getField e "path" = JSValue.string p)

/-- The writes performed for a list of entries, in order: each entry's
full fixedCode content to its path. -/
def writeEntries (fs : FileSys) (es : List JSValue) : FileSys :=
  es.foldl (fun acc e =>
    writeFile acc (jsToString (getField e "path"))
      (match getField e "fixedCode" with
       | JSValue.string s => s
       | _ => "")) fs

/-- When every entry passes validation, the apply loop writes every entry
in order and returns without an error. -/
theorem applyFixesGo_all_valid (es : List JSValue) (fs : FileSys)
    (h : ∀ e ∈ es, validEntry e) :
    applyFixesGo fs es = (writeEntries fs es, none) := by
  induction es generalizing fs with
  | nil => rfl
  | cons e rest ih =>
      obtain ⟨⟨s, hs, hfc⟩, ⟨q, hq⟩⟩ := h e (by simp)
      have htr : truthy (JSValue.string s) = true := by simp [truthy, hs]
      have hrec := ih (writeFile fs q s) (fun x hx => h x (by simp [hx]))
      simp only [applyFixesGo, hfc, hq, htr, Bool.not_true, Bool.false_or,
        Bool.not_false, Bool.or_false, Bool.false_eq_true, if_false]
      rw [hrec]
      simp only [writeEntries, List.foldl_cons, hq, hfc, jsToString_string]

/-- When the entries up to some position pass validation and the entry at
that position has a fixedCode that is not a string, the apply loop writes
exactly the earlier entries and then throws naming that entry's path. -/
theorem applyFixesGo_abort (pre post : List JSValue) (bad : JSValue) (p : String)
    (fs : FileSys)
    (hvalid : ∀ e ∈ pre, validEntry e)
    (hbad : ∀ s : String, getField bad "fixedCode" ≠ JSValue.string s)
    (hbadpath : getField bad "path" = JSValue.string p) :
    applyFixesGo fs (pre ++ bad :: post) =
      (writeEntries fs pre, some ("Invalid fixedCode for " ++ p)) := by
  induction pre generalizing fs with
  | nil =>
      have hnotstr : (match getField bad "fixedCode" with
          | JSValue.string _ => true
          | _ => false) = false := by
        cases hfc : getField bad "fixedCode"
        case string s => exact absurd hfc (hbad s)
        all_goals rfl
      simp only [List.nil_append, applyFixesGo, hnotstr, Bool.not_false, Bool.or_true,
        if_true, hbadpath, jsToString_string, writeEntries, List.foldl_nil]
  | cons e pre' ih =>
      obtain ⟨⟨s, hs, hfc⟩, ⟨q, hq⟩⟩ := hvalid e (by simp)
      have htr : truthy (JSValue.string s) = true := by simp [truthy, hs]
      have hrec := ih (writeFile fs q s) (fun x hx => hvalid x (by simp [hx]))
      simp only [List.cons_append, applyFixesGo, hfc, hq, htr, Bool.not_true,
        Bool.false_or, Bool.not_false, Bool.or_false, Bool.false_eq_true, if_false,
        List.append_eq]
      rw [hrec]
      simp only [writeEntries, List.foldl_cons, hq, hfc, jsToString_string]

/-- With the API key configured, a message classified as a review request
is handled by the review branch. -/
theorem handleMessage_review_branch (st : SessionState) (env : Env) (text : String)
    (hkey : env.hasApiKey = true) (hrev : isCodeReviewRequest text = true) :
    handleMessage st env text = handleReview st env := by
  simp only [handleMessage, hkey, hrev, Bool.not_true, Bool.false_eq_true,
    if_false, if_true]

/-- Confirm branch, apply throwing: the catch posts the error and the
state keeps its pending fixes, with the partial writes retained. -/
theorem handleMessage_apply_error (st : SessionState) (env : Env) (text : String)
    (pf : JSValue) (fs' : FileSys) (e : String)
    (hkey : env.hasApiKey = true) (hrev : isCodeReviewRequest text = false)
    (hpend : st.pendingFixes = some pf) (hyes : isYesApply text = true)
    (happly : applyFixes env.hasWorkspace pf st.fs = (fs', some e)) :
    handleMessage st env text = ({ st with fs := fs' }, [errReply e]) := by
  simp only [handleMessage, hkey, hrev, hpend, hyes, Bool.not_true,
    Bool.false_eq_true, if_false, if_true, happly]

/-- Confirm branch, apply succeeding but summary construction throwing:
the catch posts the error and the state keeps its pending fixes, with all
writes retained. -/
theorem handleMessage_summary_error (st : SessionState) (env : Env) (text : String)
    (pf : JSValue) (fs' : FileSys) (e : String)
    (hkey : env.hasApiKey = true) (hrev : isCodeReviewRequest text = false)
    (hpend : st.pendingFixes = some pf) (hyes : isYesApply text = true)
    (happly : applyFixes env.hasWorkspace pf st.fs = (fs', none))
    (hsum : buildFixSummary pf = Except.error e) :
    handleMessage st env text = ({ st with fs := fs' }, [errReply e]) := by
  simp only [handleMessage, hkey, hrev, hpend, hyes, Bool.not_true,
    Bool.false_eq_true, if_false, if_true, happly, hsum]

/-- Confirm branch, apply and summary both succeeding: the success
summary is posted and the pending fixes are reset to null. -/
theorem handleMessage_apply_ok (st : SessionState) (env : Env) (text : String)
    (pf : JSValue) (fs' : FileSys) (summary : String)
    (hkey : env.hasApiKey = true) (hrev : isCodeReviewRequest text = false)
    (hpend : st.pendingFixes = some pf) (hyes : isYesApply text = true)
    (happly : applyFixes env.hasWorkspace pf st.fs = (fs', none))
    (hsum : buildFixSummary pf = Except.ok summary) :
    handleMessage st env text =
      ({ st with fs := fs', pendingFixes := none },
       ["✅ Fixes applied successfully.\n\nSummary:\n" ++ summary]) := by
  simp only [handleMessage, hkey, hrev, hpend, hyes, Bool.not_true,
    Bool.false_eq_true, if_false, if_true, happly, hsum]

/-- Reject branch: pending fixes are reset to null with no mutation. -/
theorem handleMessage_no_branch (st : SessionState) (env : Env) (text : String)
    (pf : JSValue)
    (hkey : env.hasApiKey = true) (hrev : isCodeReviewRequest text = false)
    (hpend : st.pendingFixes = some pf) (hyes : isYesApply text = false)
    (hno : isNo text = true) :
    handleMessage st env text =
      ({ st with pendingFixes := none }, ["Okay, fixes were not applied."]) := by
  simp only [handleMessage, hkey, hrev, hpend, hyes, hno, Bool.not_true,
    Bool.false_eq_true, if_false, if_true]

/-- Any other message falls through to plain chat handling. -/
theorem handleMessage_chat_branch (st : SessionState) (env : Env) (text : String)
    (hkey : env.hasApiKey = true) (hrev : isCodeReviewRequest text = false)
    (hgate : st.pendingFixes = none ∨ (isYesApply text = false ∧ isNo text = false)) :
    handleMessage st env text = handleChat st env text := by
  rcases hgate with hp | ⟨hyes, hno⟩
  · simp only [handleMessage, hkey, hrev, hp, Bool.not_true, Bool.false_eq_true,
      if_false]
  · cases hp : st.pendingFixes with
    | none =>
        simp only [handleMessage, hkey, hrev, hp, Bool.not_true, Bool.false_eq_true,
          if_false]
    | some pf =>
        simp only [handleMessage, hkey, hrev, hp, hyes, hno, Bool.not_true,
          Bool.false_eq_true, if_false]

/-- C2: for a FixSet whose entry at position k is the first whose
fixedCode is missing or not text, apply throws InvalidFixPayloadError
naming that entry's path, writes no entries from position k onward,
leaves the earlier entries already written with no rollback, and the
confirm branch reports the failure with no success summary. -/
theorem C2_apply_aborts_at_first_invalid_entry
    (st : SessionState) (env : Env) (text : String)
    (data bad : JSValue) (pre post : List JSValue) (p : String)
    (hkey : env.hasApiKey = true) (hws : env.hasWorkspace = true)
    (hrev : isCodeReviewRequest text = false)
    (hpend : st.pendingFixes = some data)
    (hyes : isYesApply text = true)
    (hfiles : getField data "files" = JSValue.array (pre ++ bad :: post))
    (hvalid : ∀ e ∈ pre, validEntry e)
    (hbad : ∀ s : String, getField bad "fixedCode" ≠ JSValue.string s)
    (hbadpath : getField bad "path" = JSValue.string p) :
    applyFixes env.hasWorkspace data st.fs =
      (writeEntries st.fs pre, some ("Invalid fixedCode for " ++ p)) ∧
    handleMessage st env text =
      ({ st with fs := writeEntries st.fs pre },
       [errReply ("Invalid fixedCode for " ++ p)]) := by
  have happly : applyFixes env.hasWorkspace data st.fs =
      (writeEntries st.fs pre, some ("Invalid fixedCode for " ++ p)) := by
    rw [hws]
    unfold applyFixes
    simp only [Bool.not_true, Bool.false_eq_true, if_false, hfiles]
    exact applyFixesGo_abort pre post bad p st.fs hvalid hbad hbadpath
  refine ⟨happly, ?_⟩
  exact handleMessage_apply_error st env text data (writeEntries st.fs pre)
    ("Invalid fixedCode for " ++ p) hkey hrev hpend hyes happly

/-- Closed instance of the abort theorem: two entries where the second
has a numeric fixedCode; the first entry is written, the error names the
second entry's path, and the turn reports the failure only. -/
theorem C2_apply_aborts_witness :
    applyFixes true
      (JSValue.object [("files", JSValue.array
        [JSValue.object [("path", JSValue.string "a.js"),
                         ("fixedCode", JSValue.string "fixed")],
         JSValue.object [("path", JSValue.string "b.js"),
                         ("fixedCode", JSValue.number 5)]])])
      [] =
      (writeEntries []
        [JSValue.object [("path", JSValue.string "a.js"),
                         ("fixedCode", JSValue.string "fixed")]],
       some ("Invalid fixedCode for " ++ "b.js")) ∧
    handleMessage
      { history := [],
        pendingFixes := some (JSValue.object [("files", JSValue.array
          [JSValue.object [("path", JSValue.string "a.js"),
                           ("fixedCode", JSValue.string "fixed")],
           JSValue.object [("path", JSValue.string "b.js"),
                           ("fixedCode", JSValue.number 5)]])]),
        fs := [] }
      { hasApiKey := true, hasWorkspace := true, workspaceFiles := [],
        genResult := Except.ok (some "hi"), parseResult := Except.error () }
      "yes" =
      ({ history := [],
         pendingFixes := some (JSValue.object [("files", JSValue.array
           [JSValue.object [("path", JSValue.string "a.js"),
                            ("fixedCode", JSValue.string "fixed")],
            JSValue.object [("path", JSValue.string "b.js"),
                            ("fixedCode", JSValue.number 5)]])]),
         fs := writeEntries []
           [JSValue.object [("path", JSValue.string "a.js"),
                            ("fixedCode", JSValue.string "fixed")]] },
       [errReply ("Invalid fixedCode for " ++ "b.js")]) :=
  C2_apply_aborts_at_first_invalid_entry
    { history := [],
      pendingFixes := some (JSValue.object [("files", JSValue.array
        [JSValue.object [("path", JSValue.string "a.js"),
                         ("fixedCode", JSValue.string "fixed")],
         JSValue.object [("path", JSValue.string "b.js"),
                         ("fixedCode", JSValue.number 5)]])]),
      fs := [] }
    { hasApiKey := true, hasWorkspace := true, workspaceFiles := [],
      genResult := Except.ok (some "hi"), parseResult := Except.error () }
    "yes"
    (JSValue.object [("files", JSValue.array
      [JSValue.object [("path", JSValue.string "a.js"),
                       ("fixedCode", JSValue.string "fixed")],
       JSValue.object [("path", JSValue.string "b.js"),
                       ("fixedCode", JSValue.number 5)]])])
    (JSValue.object [("path", JSValue.string "b.js"),
                     ("fixedCode", JSValue.number 5)])
    [JSValue.object [("path", JSValue.string "a.js"),
                     ("fixedCode", JSValue.string "fixed")]]
    [] "b.js"
    rfl rfl (by decide) rfl (by decide) rfl
    (by
      intro e he
      rw [List.mem_singleton] at he
      subst he
      exact ⟨⟨"fixed", by decide, rfl⟩, "a.js", rfl⟩)
    (by intro s h; exact JSValue.noConfusion h)
    rfl

/-- The review branch never writes to the file system. -/
theorem handleReview_fs (st : SessionState) (env : Env) :
    (handleReview st env).1.fs = st.fs := by
  unfold handleReview
  dsimp only
  repeat' split
  all_goals rfl

/-- The review branch never touches the conversation history. -/
theorem handleReview_history (st : SessionState) (env : Env) :
    (handleReview st env).1.history = st.history := by
  unfold handleReview
  dsimp only
  repeat' split
  all_goals rfl

/-- The chat branch never touches the pending fixes. -/
theorem handleChat_pendingFixes (st : SessionState) (env : Env) (text : String) :
    (handleChat st env text).1.pendingFixes = st.pendingFixes := by
  unfold handleChat
  split
  all_goals rfl

/-- The chat branch never writes to the file system. -/
theorem handleChat_fs (st : SessionState) (env : Env) (text : String) :
    (handleChat st env text).1.fs = st.fs := by
  unfold handleChat
  split
  all_goals rfl

/-- C7: a message classified as a review request is handled by the review
branch even while a fix is pending: the gate-token check is never
reached, nothing is applied (the file system is untouched), and the
review workflow runs again. -/
theorem C7_review_classification_precedes_gate_tokens
    (st : SessionState) (env : Env) (text : String) (pf : JSValue)
    (hkey : env.hasApiKey = true)
    (_hpend : st.pendingFixes = some pf)
    (hrev : isCodeReviewRequest text = true) :
    handleMessage st env text = handleReview st env ∧
    (handleMessage st env text).1.fs = st.fs := by
  have h := handleMessage_review_branch st env text hkey hrev
  refine ⟨h, ?_⟩
  rw [h]
  exact handleReview_fs st env

/-- Closed instance of the precedence theorem: with a fix pending, the
message please fix this re-triggers review and applies nothing. -/
theorem C7_precedence_witness :
    handleMessage
      { history := [], pendingFixes := some (JSValue.object []), fs := [] }
      { hasApiKey := true, hasWorkspace := true, workspaceFiles := [],
        genResult := Except.ok (some "hi"), parseResult := Except.error () }
      "please fix this" =
      handleReview
        { history := [], pendingFixes := some (JSValue.object []), fs := [] }
        { hasApiKey := true, hasWorkspace := true, workspaceFiles := [],
          genResult := Except.ok (some "hi"), parseResult := Except.error () } ∧
    (handleMessage
      { history := [], pendingFixes := some (JSValue.object []), fs := [] }
      { hasApiKey := true, hasWorkspace := true, workspaceFiles := [],
        genResult := Except.ok (some "hi"), parseResult := Except.error () }
      "please fix this").1.fs = [] :=
  C7_review_classification_precedes_gate_tokens
    { history := [], pendingFixes := some (JSValue.object []), fs := [] }
    { hasApiKey := true, hasWorkspace := true, workspaceFiles := [],
      genResult := Except.ok (some "hi"), parseResult := Except.error () }
    "please fix this" (JSValue.object []) rfl rfl (by decide)

/-- C8: when the review response parses to a JSON object whose files
field is absent or an empty list, the payload is discarded: pendingFixes
ends up null (the gate does not await confirmation) and the turn reports
that no issues were found. -/
theorem C8_empty_fixset_discarded
    (st : SessionState) (env : Env) (text : String)
    (fields : List (String × JSValue)) (raw span : String)
    (hkey : env.hasApiKey = true)
    (hrev : isCodeReviewRequest text = true)
    (hfilesne : env.workspaceFiles ≠ [])
    (hgen : env.genResult = Except.ok (some raw))
    (hext : extractJson raw = Except.ok span)
    (hparse : env.parseResult = Except.ok (JSValue.object fields))
    (hempty : fields.lookup "files" = none ∨
              fields.lookup "files" = some (JSValue.array [])) :
    handleMessage st env text =
      ({ st with pendingFixes := none },
       ["Checking your code, please wait...", "Reviewing workspace files...",
        "✅ No issues found. Your code looks good."]) := by
  have hchk : emptyFilesCheck (JSValue.object fields) = true := by
    rcases hempty with h | h <;> simp [emptyFilesCheck, getField, h, truthy]
  have hlen : ((env.workspaceFiles.take 10).length == 0) = false := by
    rw [beq_eq_false_iff_ne]
    have h1 : env.workspaceFiles.length ≠ 0 :=
      fun h => hfilesne (List.length_eq_zero.mp h)
    rw [List.length_take]
    omega
  rw [handleMessage_review_branch st env text hkey hrev]
  unfold handleReview
  simp only [hlen, Bool.false_eq_true, if_false, hgen, hext, hparse, hchk, if_true,
    List.cons_append, List.nil_append]

/-- Closed instance of the empty-FixSet discard at the spec's example
response text. -/
theorem C8_empty_fixset_witness :
    handleMessage
      { history := [], pendingFixes := none, fs := [] }
      { hasApiKey := true, hasWorkspace := true,
        workspaceFiles := [("f.js", "let x = 1")],
        genResult := Except.ok (some "prefix \x7b\"files\":[]\x7d suffix"),
        parseResult := Except.ok (JSValue.object [("files", JSValue.array [])]) }
      "review my code" =
      ({ history := [], pendingFixes := none, fs := [] },
       ["Checking your code, please wait...", "Reviewing workspace files...",
        "✅ No issues found. Your code looks good."]) :=
  C8_empty_fixset_discarded
    { history := [], pendingFixes := none, fs := [] }
    { hasApiKey := true, hasWorkspace := true,
      workspaceFiles := [("f.js", "let x = 1")],
      genResult := Except.ok (some "prefix \x7b\"files\":[]\x7d suffix"),
      parseResult := Except.ok (JSValue.object [("files", JSValue.array [])]) }
    "review my code"
    [("files", JSValue.array [])]
    "prefix \x7b\"files\":[]\x7d suffix" "\x7b\"files\":[]\x7d"
    rfl (by decide) (by decide) rfl rfl rfl (Or.inr rfl)

/-- When some entry makes the summary-line construction throw, mapping
the summary-line over the entries throws (at the first such entry). -/
theorem mapM_summaryLine_error (es : List JSValue)
    (h : ∃ e ∈ es, ∃ m, summaryLine e = Except.error m) :
    ∃ m, es.mapM summaryLine = Except.error m := by
  induction es with
  | nil => simp at h
  | cons hd tl ih =>
      cases hm : summaryLine hd with
      | error m =>
          refine ⟨m, ?_⟩
          rw [List.mapM_cons, hm]
          rfl
      | ok v =>
          obtain ⟨e, he, m, hme⟩ := h
          rcases List.mem_cons.mp he with rfl | htl
          · rw [hm] at hme
            exact absurd hme (by simp)
          · obtain ⟨m', hm'⟩ := ih ⟨e, htl, m, hme⟩
            refine ⟨m', ?_⟩
            rw [List.mapM_cons, hm, hm']
            rfl

/-- When the files field is an array containing an entry whose summary
line throws, buildFixSummary throws. -/
theorem buildFixSummary_error_of (pf : JSValue) (entries : List JSValue)
    (hfiles : getField pf "files" = JSValue.array entries)
    (h : ∃ e ∈ entries, ∃ m, summaryLine e = Except.error m) :
    ∃ m, buildFixSummary pf = Except.error m := by
  obtain ⟨m, hm⟩ := mapM_summaryLine_error entries h
  refine ⟨m, ?_⟩
  unfold buildFixSummary
  rw [hfiles]
  dsimp only
  rw [hm]
  rfl

/-- C10: for a pending FixSet whose entries all carry a valid string
fixedCode but where some entry has no issues field, confirming writes
every file, the summary construction then throws, the error path reports
the failure instead of the success message, and the pending fix state is
not cleared even though every file was mutated. -/
theorem C10_summary_throw_after_full_write
    (st : SessionState) (env : Env) (text : String)
    (pf : JSValue) (entries : List JSValue)
    (hkey : env.hasApiKey = true) (hws : env.hasWorkspace = true)
    (hrev : isCodeReviewRequest text = false)
    (hpend : st.pendingFixes = some pf)
    (hyes : isYesApply text = true)
    (hfiles : getField pf "files" = JSValue.array entries)
    (hvalid : ∀ e ∈ entries, validEntry e)
    (hnoiss : ∃ e ∈ entries, getField e "issues" = JSValue.undefined) :
    ∃ emsg, buildFixSummary pf = Except.error emsg ∧
      handleMessage st env text =
        ({ st with fs := writeEntries st.fs entries }, [errReply emsg]) ∧
      (handleMessage st env text).1.pendingFixes = some pf := by
  have hsumErr : ∃ e ∈ entries, ∃ m, summaryLine e = Except.error m := by
    obtain ⟨e, he, hiss⟩ := hnoiss
    obtain ⟨⟨s, hs, hfc⟩, ⟨p, hp⟩⟩ := hvalid e he
    refine ⟨e, he, "Cannot read properties of undefined (reading 'slice')", ?_⟩
    unfold summaryLine
    rw [hp, hiss]
  obtain ⟨emsg, hsum⟩ := buildFixSummary_error_of pf entries hfiles hsumErr
  have happly : applyFixes env.hasWorkspace pf st.fs =
      (writeEntries st.fs entries, none) := by
    rw [hws]
    unfold applyFixes
    simp only [Bool.not_true, Bool.false_eq_true, if_false, hfiles]
    exact applyFixesGo_all_valid entries st.fs hvalid
  have hh := handleMessage_summary_error st env text pf (writeEntries st.fs entries)
    emsg hkey hrev hpend hyes happly hsum
  refine ⟨emsg, hsum, hh, ?_⟩
  rw [hh]
  exact hpend

/-- Closed instance of the summary-throw theorem: one entry with a valid
fixedCode and no issues field. -/
theorem C10_summary_throw_witness :
    ∃ emsg,
      buildFixSummary (JSValue.object [("files", JSValue.array
        [JSValue.object [("path", JSValue.string "a.js"),
                         ("fixedCode", JSValue.string "x")]])]) =
        Except.error emsg ∧
      handleMessage
        { history := [],
          pendingFixes := some (JSValue.object [("files", JSValue.array
            [JSValue.object [("path", JSValue.string "a.js"),
                             ("fixedCode", JSValue.string "x")]])]),
          fs := [] }
        { hasApiKey := true, hasWorkspace := true, workspaceFiles := [],
          genResult := Except.ok (some "hi"), parseResult := Except.error () }
        "yes" =
        ({ history := [],
           pendingFixes := some (JSValue.object [("files", JSValue.array
             [JSValue.object [("path", JSValue.string "a.js"),
                              ("fixedCode", JSValue.string "x")]])]),
           fs := writeEntries []
             [JSValue.object [("path", JSValue.string "a.js"),
                              ("fixedCode", JSValue.string "x")]] },
         [errReply emsg]) ∧
      (handleMessage
        { history := [],
          pendingFixes := some (JSValue.object [("files", JSValue.array
            [JSValue.object [("path", JSValue.string "a.js"),
                             ("fixedCode", JSValue.string "x")]])]),
          fs := [] }
        { hasApiKey := true, hasWorkspace := true, workspaceFiles := [],
          genResult := Except.ok (some "hi"), parseResult := Except.error () }
        "yes").1.pendingFixes =
        some (JSValue.object [("files", JSValue.array
          [JSValue.object [("path", JSValue.string "a.js"),
                           ("fixedCode", JSValue.string "x")]])]) :=
  C10_summary_throw_after_full_write
    { history := [],
      pendingFixes := some (JSValue.object [("files", JSValue.array
        [JSValue.object [("path", JSValue.string "a.js"),
                         ("fixedCode", JSValue.string "x")]])]),
      fs := [] }
    { hasApiKey := true, hasWorkspace := true, workspaceFiles := [],
      genResult := Except.ok (some "hi"), parseResult := Except.error () }
    "yes"
    (JSValue.object [("files", JSValue.array
      [JSValue.object [("path", JSValue.string "a.js"),
                       ("fixedCode", JSValue.string "x")]])])
    [JSValue.object [("path", JSValue.string "a.js"),
                     ("fixedCode", JSValue.string "x")]]
    rfl rfl (by decide) rfl (by decide) rfl
    (by
      intro e he
      rw [List.mem_singleton] at he
      subst he
      exact ⟨⟨"x", by decide, rfl⟩, "a.js", rfl⟩)
    ⟨JSValue.object [("path", JSValue.string "a.js"),
                     ("fixedCode", JSValue.string "x")],
     by simp, rfl⟩

/-- Fixture: a proposed-fix entry with a path but no fixedCode field. -/
def entryNoFixedCode : JSValue :=
  JSValue.object [("path", JSValue.string "a.js")]

/-- Fixture: a parsed fix payload holding the single invalid entry. -/
def pfNoFixedCode : JSValue :=
  JSValue.object [("files", JSValue.array [entryNoFixedCode])]

/-- Fixture: an environment with the key and a workspace, a model call
that returns the text hi, and a JSON.parse outcome that throws. -/
def envPlain : Env :=
  { hasApiKey := true, hasWorkspace := true, workspaceFiles := [],
    genResult := Except.ok (some "hi"), parseResult := Except.error () }

/-- Fixture: as envPlain but the model call throws with message boom. -/
def envFail : Env :=
  { hasApiKey := true, hasWorkspace := true, workspaceFiles := [],
    genResult := Except.error "boom", parseResult := Except.error () }

/-- C1 counterexample: confirming a pending FixSet whose apply fails does
surface the error, but the pending fix state is NOT cleared — after the
failure the gate still holds the same FixSet, refuting the claim that any
application failure leaves the gate back in Idle. -/
theorem C1_pending_cleared_counterexample :
    (handleMessage { history := [], pendingFixes := some pfNoFixedCode, fs := [] }
      envPlain "yes").2 = [errReply "Invalid fixedCode for a.js"] ∧
    (handleMessage { history := [], pendingFixes := some pfNoFixedCode, fs := [] }
      envPlain "yes").1.pendingFixes ≠ none := by
  have happly : applyFixes envPlain.hasWorkspace pfNoFixedCode ([] : FileSys) =
      ([], some "Invalid fixedCode for a.js") := by
    have h := applyFixesGo_abort [] [] entryNoFixedCode "a.js" []
      (by simp) (fun s hh => JSValue.noConfusion hh) rfl
    exact h
  have hh := handleMessage_apply_error
    { history := [], pendingFixes := some pfNoFixedCode, fs := [] }
    envPlain "yes" pfNoFixedCode [] "Invalid fixedCode for a.js"
    rfl (by decide) rfl (by decide) happly
  refine ⟨?_, ?_⟩
  · rw [hh]
  · rw [hh]
    simp

/-- C1 (amended): if the user confirms a pending FixSet with yes or apply
and the apply operation fails, the error is surfaced to the user, but the
pending fix state is NOT cleared: the gate still holds the same FixSet
after the failure. -/
theorem C1_apply_failure_surfaces_error_keeps_pending
    (st : SessionState) (env : Env) (text : String)
    (pf : JSValue) (fs' : FileSys) (e : String)
    (hkey : env.hasApiKey = true)
    (hrev : isCodeReviewRequest text = false)
    (hpend : st.pendingFixes = some pf)
    (hyes : isYesApply text = true)
    (happly : applyFixes env.hasWorkspace pf st.fs = (fs', some e)) :
    handleMessage st env text = ({ st with fs := fs' }, [errReply e]) ∧
    (handleMessage st env text).1.pendingFixes = some pf := by
  have hh := handleMessage_apply_error st env text pf fs' e hkey hrev hpend hyes happly
  refine ⟨hh, ?_⟩
  rw [hh]
  exact hpend

/-- Closed instance of the amended C1 theorem at the invalid-entry
fixture. -/
theorem C1_apply_failure_witness :
    handleMessage { history := [], pendingFixes := some pfNoFixedCode, fs := [] }
      envPlain "yes" =
      ({ history := [], pendingFixes := some pfNoFixedCode, fs := [] },
       [errReply "Invalid fixedCode for a.js"]) ∧
    (handleMessage { history := [], pendingFixes := some pfNoFixedCode, fs := [] }
      envPlain "yes").1.pendingFixes = some pfNoFixedCode := by
  have happly : applyFixes envPlain.hasWorkspace pfNoFixedCode ([] : FileSys) =
      ([], some "Invalid fixedCode for a.js") := by
    have h := applyFixesGo_abort [] [] entryNoFixedCode "a.js" []
      (by simp) (fun s hh => JSValue.noConfusion hh) rfl
    exact h
  exact C1_apply_failure_surfaces_error_keeps_pending
    { history := [], pendingFixes := some pfNoFixedCode, fs := [] }
    envPlain "yes" pfNoFixedCode [] "Invalid fixedCode for a.js"
    rfl (by decide) rfl (by decide) happly

/-- C3 counterexample: when the chat-path model call fails, the failure
is reported as a single chat turn, but the history is NOT unchanged: the
failing user turn has been appended, refuting the claim that history
after the error equals history before the message. -/
theorem C3_history_unchanged_counterexample :
    (handleMessage initialState envFail "hello").2 = [errReply "boom"] ∧
    (handleMessage initialState envFail "hello").1.history =
      [{ role := "user", parts := ["hello"] }] ∧
    (handleMessage initialState envFail "hello").1.history ≠ initialState.history := by
  refine ⟨rfl, rfl, ?_⟩
  intro h
  exact List.noConfusion h

/-- C3 (amended): when the chat-path model call fails, the failure is
reported as a single chat turn and the failing user turn IS appended to
the history (with no assistant turn and no trimming): history after the
error equals history before plus that user turn. -/
theorem C3_chat_failure_appends_user_turn
    (st : SessionState) (env : Env) (text e : String)
    (hkey : env.hasApiKey = true)
    (hrev : isCodeReviewRequest text = false)
    (hgate : st.pendingFixes = none ∨ (isYesApply text = false ∧ isNo text = false))
    (hgen : env.genResult = Except.error e) :
    handleMessage st env text =
      ({ st with history := st.history ++ [{ role := "user", parts := [text] }] },
       [errReply e]) := by
  rw [handleMessage_chat_branch st env text hkey hrev hgate]
  unfold handleChat
  rw [hgen]

/-- Closed instance of the amended C3 theorem on an empty history. -/
theorem C3_chat_failure_witness :
    handleMessage initialState envFail "hello" =
      ({ initialState with
          history := initialState.history ++ [{ role := "user", parts := ["hello"] }] },
       [errReply "boom"]) :=
  C3_chat_failure_appends_user_turn initialState envFail "hello" "boom"
    rfl (by decide) (Or.inl rfl) rfl

/-- History-shape invariant maintained by successful chat turns: at most
MAX_TURNS * 2 entries and an even count (whole user+assistant pairs). -/
def histInv (st : SessionState) : Prop :=
  st.history.length ≤ MAX_TURNS * 2 ∧ st.history.length % 2 = 0

/-- Length of the trimmed history: capped at MAX_TURNS * 2. -/
theorem trimHistory_length (h : List Turn) :
    (trimHistory h).length =
      if h.length > MAX_TURNS * 2 then MAX_TURNS * 2 else h.length := by
  unfold trimHistory
  dsimp only
  split
  · simp only [List.length_drop]
    omega
  · rfl

/-- A successful chat turn preserves the history-shape invariant. -/
theorem handleChat_histInv (st : SessionState) (env : Env) (text : String)
    (hinv : histInv st) (r : Option String)
    (hr : env.genResult = Except.ok r) :
    histInv (handleChat st env text).1 := by
  obtain ⟨h1, h2⟩ := hinv
  unfold handleChat
  rw [hr]
  dsimp only
  unfold histInv
  dsimp only
  rw [trimHistory_length]
  simp only [List.length_append, List.length_cons, List.length_nil]
  constructor
  · split <;> omega
  · split <;> omega

/-- One message-handling step whose model-call outcome is a success
preserves the history-shape invariant (only the chat branch touches the
history at all). -/
theorem handleMessage_histInv (st : SessionState) (env : Env) (text : String)
    (hinv : histInv st) (r : Option String)
    (hr : env.genResult = Except.ok r) :
    histInv (handleMessage st env text).1 := by
  cases hkey : env.hasApiKey with
  | false =>
      simp only [handleMessage, hkey, Bool.not_false, if_true]
      exact hinv
  | true =>
      by_cases hrev : isCodeReviewRequest text
      · rw [handleMessage_review_branch st env text hkey hrev]
        unfold histInv
        rw [handleReview_history]
        exact hinv
      · rw [Bool.not_eq_true] at hrev
        cases hp : st.pendingFixes with
        | none =>
            rw [handleMessage_chat_branch st env text hkey hrev (Or.inl hp)]
            exact handleChat_histInv st env text hinv r hr
        | some pf =>
            by_cases hyes : isYesApply text
            · rcases hap : applyFixes env.hasWorkspace pf st.fs with ⟨fs', aerr⟩
              cases aerr with
              | some e =>
                  rw [handleMessage_apply_error st env text pf fs' e hkey hrev hp hyes hap]
                  exact hinv
              | none =>
                  cases hsum : buildFixSummary pf with
                  | error e =>
                      rw [handleMessage_summary_error st env text pf fs' e hkey hrev hp
                        hyes hap hsum]
                      exact hinv
                  | ok summary =>
                      rw [handleMessage_apply_ok st env text pf fs' summary hkey hrev hp
                        hyes hap hsum]
                      exact hinv
            · rw [Bool.not_eq_true] at hyes
              by_cases hno : isNo text
              · rw [handleMessage_no_branch st env text pf hkey hrev hp hyes hno]
                exact hinv
              · rw [Bool.not_eq_true] at hno
                rw [handleMessage_chat_branch st env text hkey hrev (Or.inr ⟨hyes, hno⟩)]
                exact handleChat_histInv st env text hinv r hr

/-- Traces of steps whose model calls all succeed preserve the
history-shape invariant. -/
theorem runTrace_histInv (steps : List Step) :
    ∀ st : SessionState, histInv st →
      (∀ s ∈ steps, ∃ r, s.env.genResult = Except.ok r) →
      histInv (runTrace st steps) := by
  induction steps with
  | nil =>
      intro st h _
      exact h
  | cons s rest ih =>
      intro st h hok
      obtain ⟨r, hr⟩ := hok s (by simp)
      unfold runTrace
      rw [List.foldl_cons]
      exact ih ((handleMessage st s.env s.text).1)
        (handleMessage_histInv st s.env s.text h r hr)
        (fun x hx => hok x (by simp [hx]))

/-- Fixture: a successful plain chat step. -/
def chatOkStep : Step := { env := envPlain, text := "hello" }

/-- Fixture: a plain chat step whose model call throws. -/
def chatFailStep : Step := { env := envFail, text := "hello" }

/-- C4 counterexample: after six successful chat turns the history holds
12 entries; a seventh turn whose model call fails appends the user turn
without trimming, leaving 13 entries — more than 2 times MAX_TURNS,
refuting the claimed bound for sequences that include failing steps. -/
theorem C4_bound_counterexample :
    (runTrace initialState
      (List.replicate 6 chatOkStep ++ [chatFailStep])).history.length = 13 ∧
    ¬ (runTrace initialState
      (List.replicate 6 chatOkStep ++ [chatFailStep])).history.length ≤
        MAX_TURNS * 2 := by
  decide

/-- C4 (amended): after any sequence of message-handling steps in which
every model call succeeds, the history never exceeds MAX_TURNS * 2 = 12
entries and always holds whole user+assistant pairs (even length); and
trimming always removes entries from the front only.  A step whose chat
model call fails appends the user turn without trimming, so the bound
can be exceeded then. -/
theorem C4_history_bound_on_successful_traces (steps : List Step)
    (hok : ∀ s ∈ steps, ∃ r, s.env.genResult = Except.ok r) :
    (runTrace initialState steps).history.length ≤ MAX_TURNS * 2 ∧
    (runTrace initialState steps).history.length % 2 = 0 ∧
    ∀ h : List Turn, trimHistory h = h.drop (h.length - MAX_TURNS * 2) := by
  have hinv := runTrace_histInv steps initialState ⟨by simp [initialState], by simp [initialState]⟩ hok
  refine ⟨hinv.1, hinv.2, ?_⟩
  intro h
  unfold trimHistory
  dsimp only
  split
  · rfl
  · have hM : MAX_TURNS = 6 := rfl
    have hz : h.length - MAX_TURNS * 2 = 0 := by omega
    rw [hz, List.drop_zero]

/-- Closed instance of the amended C4 theorem after one successful chat
step. -/
theorem C4_history_bound_witness :
    (runTrace initialState [chatOkStep]).history.length ≤ MAX_TURNS * 2 ∧
    (runTrace initialState [chatOkStep]).history.length % 2 = 0 ∧
    ∀ h : List Turn, trimHistory h = h.drop (h.length - MAX_TURNS * 2) :=
  C4_history_bound_on_successful_traces [chatOkStep]
    (by
      intro s hs
      rw [List.mem_singleton] at hs
      subst hs
      exact ⟨some "hi", rfl⟩)

/-- The conditions under which the review branch reaches the
empty-payload discard: a non-empty snapshot, a model text, an extractable
span, a JSON.parse success, and the emptiness test holding. -/
def reviewDiscardsEmpty (env : Env) : Prop :=
  (env.workspaceFiles.take 10).length ≠ 0 ∧
  ∃ raw, env.genResult = Except.ok (some raw) ∧
    (∃ span, extractJson raw = Except.ok span) ∧
    ∃ pf, env.parseResult = Except.ok pf ∧ emptyFilesCheck pf = true

/-- With a fix pending, the review branch leaves pendingFixes null
exactly when it reaches the empty-payload discard. -/
theorem handleReview_pending_none_iff (st : SessionState) (env : Env) (pf : JSValue)
    (hp : st.pendingFixes = some pf) :
    ((handleReview st env).1.pendingFixes = none ↔ reviewDiscardsEmpty env) := by
  unfold reviewDiscardsEmpty
  by_cases hlen : ((env.workspaceFiles.take 10).length == 0) = true
  · have heq : (handleReview st env).1.pendingFixes = some pf := by
      unfold handleReview
      simp only [hlen, if_true]
      exact hp
    rw [heq]
    constructor
    · intro h
      exact absurd h (by simp)
    · rintro ⟨hne, -⟩
      exact absurd (beq_iff_eq.mp hlen) hne
  · have hlen' : ((env.workspaceFiles.take 10).length == 0) = false :=
      Bool.not_eq_true _ ▸ hlen
    have hlenne : (env.workspaceFiles.take 10).length ≠ 0 := by
      intro h
      rw [h] at hlen'
      simp at hlen'
    cases hgen : env.genResult with
    | error e =>
        have heq : (handleReview st env).1.pendingFixes = some pf := by
          unfold handleReview
          simp only [hlen', Bool.false_eq_true, if_false, hgen]
          exact hp
        rw [heq]
        constructor
        · intro h
          exact absurd h (by simp)
        · rintro ⟨-, raw, hraw, -⟩
          exact Except.noConfusion hraw
    | ok rawOpt =>
        cases rawOpt with
        | none =>
            have heq : (handleReview st env).1.pendingFixes = some pf := by
              unfold handleReview
              simp only [hlen', Bool.false_eq_true, if_false, hgen]
              exact hp
            rw [heq]
            constructor
            · intro h
              exact absurd h (by simp)
            · rintro ⟨-, raw, hraw, -⟩
              rw [Except.ok.injEq] at hraw
              exact Option.noConfusion hraw
        | some raw =>
            cases hext : extractJson raw with
            | error e2 =>
                have heq : (handleReview st env).1.pendingFixes = some pf := by
                  unfold handleReview
                  simp only [hlen', Bool.false_eq_true, if_false, hgen, hext]
                  exact hp
                rw [heq]
                constructor
                · intro h
                  exact absurd h (by simp)
                · rintro ⟨-, raw', hraw', ⟨span, hspan⟩, -⟩
                  rw [Except.ok.injEq, Option.some.injEq] at hraw'
                  rw [← hraw'] at hspan
                  rw [hext] at hspan
                  exact Except.noConfusion hspan
            | ok span =>
                cases hparse : env.parseResult with
                | error u =>
                    have heq : (handleReview st env).1.pendingFixes = some pf := by
                      unfold handleReview
                      simp only [hlen', Bool.false_eq_true, if_false, hgen, hext, hparse]
                      exact hp
                    rw [heq]
                    constructor
                    · intro h
                      exact absurd h (by simp)
                    · rintro ⟨-, raw', hraw', -, pfv, hpfv, -⟩
                      exact Except.noConfusion hpfv
                | ok pfv =>
                    by_cases hchk : emptyFilesCheck pfv = true
                    · have heq : (handleReview st env).1.pendingFixes = none := by
                        unfold handleReview
                        simp only [hlen', Bool.false_eq_true, if_false, hgen, hext,
                          hparse, hchk, if_true]
                      rw [heq]
                      constructor
                      · intro _
                        exact ⟨hlenne, raw, rfl, ⟨span, hext⟩, pfv, rfl, hchk⟩
                      · intro _
                        rfl
                    · have hchk' : emptyFilesCheck pfv = false :=
                        Bool.not_eq_true _ ▸ hchk
                      have heq : (handleReview st env).1.pendingFixes = some pfv := by
                        unfold handleReview
                        simp only [hlen', Bool.false_eq_true, if_false, hgen, hext,
                          hparse, hchk', if_false]
                      rw [heq]
                      constructor
                      · intro h
                        exact absurd h (by simp)
                      · rintro ⟨-, raw', hraw', -, pfv', hpfv', hchkv⟩
                        rw [Except.ok.injEq] at hpfv'
                        rw [← hpfv'] at hchkv
                        rw [hchkv] at hchk'
                        exact Bool.noConfusion hchk'

/-- C5 counterexample: tearing down the session (closing the chat panel)
clears the history but does NOT clear the pending FixSet, refuting the
claim that the pending fix state is cleared on session end. -/
theorem C5_session_end_counterexample :
    (onDispose { history := [{ role := "user", parts := ["hi"] }],
                 pendingFixes := some pfNoFixedCode, fs := [] }).history = [] ∧
    (onDispose { history := [{ role := "user", parts := ["hi"] }],
                 pendingFixes := some pfNoFixedCode, fs := [] }).pendingFixes ≠ none := by
  refine ⟨rfl, ?_⟩
  simp [onDispose]

/-- C5 (amended): while a FixSet is pending, one message-handling step
clears the pending fix state exactly when it is a fully successful
application (apply and summary both succeed), an explicit rejection with
no, or a review request whose response parses to an empty FixSet; session
end clears the history but leaves the pending FixSet in place. -/
theorem C5_pending_cleared_characterization
    (st : SessionState) (env : Env) (text : String) (pf : JSValue)
    (hkey : env.hasApiKey = true)
    (hpend : st.pendingFixes = some pf) :
    ( (handleMessage st env text).1.pendingFixes = none ↔
        ( (isCodeReviewRequest text = true ∧ reviewDiscardsEmpty env)
        ∨ (isCodeReviewRequest text = false ∧ isYesApply text = true ∧
            (∃ fs', applyFixes env.hasWorkspace pf st.fs = (fs', none)) ∧
            (∃ summary, buildFixSummary pf = Except.ok summary))
        ∨ (isCodeReviewRequest text = false ∧ isYesApply text = false ∧
            isNo text = true) ) ) ∧
    (onDispose st).pendingFixes = some pf ∧
    (onDispose st).history = [] := by
  refine ⟨?_, hpend, rfl⟩
  by_cases hrev : isCodeReviewRequest text = true
  · rw [handleMessage_review_branch st env text hkey hrev]
    rw [handleReview_pending_none_iff st env pf hpend]
    constructor
    · intro h
      exact Or.inl ⟨hrev, h⟩
    · rintro (⟨-, h⟩ | ⟨hfalse, -⟩ | ⟨hfalse, -⟩)
      · exact h
      · rw [hrev] at hfalse
        exact Bool.noConfusion hfalse
      · rw [hrev] at hfalse
        exact Bool.noConfusion hfalse
  · have hrev' : isCodeReviewRequest text = false := Bool.not_eq_true _ ▸ hrev
    by_cases hyes : isYesApply text = true
    · rcases hap : applyFixes env.hasWorkspace pf st.fs with ⟨fs', aerr⟩
      cases aerr with
      | some e =>
          rw [handleMessage_apply_error st env text pf fs' e hkey hrev' hpend hyes hap]
          constructor
          · intro h
            rw [hpend] at h
            exact absurd h (by simp)
          · rintro (⟨hfalse, -⟩ | ⟨-, -, ⟨fs'', hap2⟩, -⟩ | ⟨-, hfalse, -⟩)
            · rw [hrev'] at hfalse
              exact Bool.noConfusion hfalse
            · rw [Prod.mk.injEq] at hap2
              exact Option.noConfusion hap2.2
            · rw [hyes] at hfalse
              exact Bool.noConfusion hfalse
      | none =>
          cases hsum : buildFixSummary pf with
          | error e =>
              rw [handleMessage_summary_error st env text pf fs' e hkey hrev' hpend
                hyes hap hsum]
              constructor
              · intro h
                rw [hpend] at h
                exact absurd h (by simp)
              · rintro (⟨hfalse, -⟩ | ⟨-, -, -, ⟨summary, hsum2⟩⟩ | ⟨-, hfalse, -⟩)
                · rw [hrev'] at hfalse
                  exact Bool.noConfusion hfalse
                · exact Except.noConfusion hsum2
                · rw [hyes] at hfalse
                  exact Bool.noConfusion hfalse
          | ok summary =>
              rw [handleMessage_apply_ok st env text pf fs' summary hkey hrev' hpend
                hyes hap hsum]
              constructor
              · intro _
                exact Or.inr (Or.inl ⟨hrev', hyes, ⟨fs', rfl⟩, ⟨summary, rfl⟩⟩)
              · intro _
                rfl
    · have hyes' : isYesApply text = false := Bool.not_eq_true _ ▸ hyes
      by_cases hno : isNo text = true
      · rw [handleMessage_no_branch st env text pf hkey hrev' hpend hyes' hno]
        constructor
        · intro _
          exact Or.inr (Or.inr ⟨hrev', hyes', hno⟩)
        · intro _
          rfl
      · have hno' : isNo text = false := Bool.not_eq_true _ ▸ hno
        rw [handleMessage_chat_branch st env text hkey hrev' (Or.inr ⟨hyes', hno'⟩)]
        rw [handleChat_pendingFixes st env text, hpend]
        constructor
        · intro h
          exact absurd h (by simp)
        · rintro (⟨hfalse, -⟩ | ⟨-, hfalse, -⟩ | ⟨-, -, hfalse⟩)
          · rw [hrev'] at hfalse
            exact Bool.noConfusion hfalse
          · rw [hyes'] at hfalse
            exact Bool.noConfusion hfalse
          · rw [hno'] at hfalse
            exact Bool.noConfusion hfalse

/-- Closed instance of the clearing characterization with a pending
FixSet and the message no. -/
theorem C5_pending_cleared_witness :
    ( (handleMessage { history := [], pendingFixes := some pfNoFixedCode, fs := [] }
        envPlain "no").1.pendingFixes = none ↔
        ( (isCodeReviewRequest "no" = true ∧ reviewDiscardsEmpty envPlain)
        ∨ (isCodeReviewRequest "no" = false ∧ isYesApply "no" = true ∧
            (∃ fs', applyFixes envPlain.hasWorkspace pfNoFixedCode
              ({ history := [], pendingFixes := some pfNoFixedCode,
                 fs := [] } : SessionState).fs = (fs', none)) ∧
            (∃ summary, buildFixSummary pfNoFixedCode = Except.ok summary))
        ∨ (isCodeReviewRequest "no" = false ∧ isYesApply "no" = false ∧
            isNo "no" = true) ) ) ∧
    (onDispose { history := [], pendingFixes := some pfNoFixedCode, fs := [] }).pendingFixes =
      some pfNoFixedCode ∧
    (onDispose { history := [], pendingFixes := some pfNoFixedCode, fs := [] }).history = [] :=
  C5_pending_cleared_characterization
    { history := [], pendingFixes := some pfNoFixedCode, fs := [] }
    envPlain "no" pfNoFixedCode rfl rfl
